import Mathlib

set_option maxHeartbeats 1000000

namespace KimiAutoTrader

/-! ## Embedding of `validator.py` (`AccuracyValidator`) -/

namespace Validator

/-- A row of `data.csv` as consumed by `validate_recent_performance`: the six
feature columns and the `target` column.  `ret` stands for the source's
`return` column (a Lean keyword). -/
structure DataRow where
  ret : ℚ
  volatility : ℚ
  rsi : ℚ
  ema9 : ℚ
  ema21 : ℚ
  ema_signal : ℚ
  target : ℤ
  deriving DecidableEq, Repr

/-- State of `AccuracyValidator`: `threshold` (default 0.70),
`performance_history`, `recent_accuracy` (default optimistic 1.0). -/
structure VState where
  threshold : ℚ
  performance_history : List ℚ
  recent_accuracy : ℚ
  deriving DecidableEq, Repr

/-- The fallible body of `validate_recent_performance` up to and including the
computation of the new accuracy: read `data.csv` (`readCsv = none` models the
read raising), take the last 10 rows (`df.tail(10)`), predict each sampled row
with the live model (`predict` returning `none` models a prediction raising),
count correct predictions and divide by the sample size (`none` on an empty
sample models the `ZeroDivisionError` of `correct / len(y_true)`).  A `none`
anywhere models an exception caught by the surrounding `try`/`except`. -/
def validationAttempt (readCsv : Option (List DataRow))
    (predict : DataRow → Option ℤ) : Option ℚ :=
  match readCsv with
  | none => none
  | some df =>
    let sample := df.drop (df.length - 10)
    match sample.mapM predict with
    | none => none
    | some preds =>
      let correct :=
        (preds.zip (sample.map DataRow.target)).countP fun pt => decide (pt.1 = pt.2)
      if sample.length = 0 then none
      else some ((correct : ℚ) / (sample.length : ℚ))

/-- `validate_recent_performance`: on success stores the new accuracy in
`recent_accuracy` and appends it to `performance_history`; on any caught
exception the state is left unchanged (the assignment sits after every
fallible operation in the `try` block). -/
def validate_recent_performance (readCsv : Option (List DataRow))
    (predict : DataRow → Option ℤ) (s : VState) : VState :=
  match validationAttempt readCsv predict with
  | none => s
  | some a =>
    { s with recent_accuracy := a, performance_history := s.performance_history ++ [a] }

/-- `needs_retraining`: true iff `recent_accuracy` fell below the threshold. -/
def needs_retraining (s : VState) : Bool := s.recent_accuracy < s.threshold

/-- `reset_metrics`: clears `performance_history`; no other field is touched. -/
def reset_metrics (s : VState) : VState := { s with performance_history := [] }

end Validator

/-! ## Embedding of `daily_data_updater.py` (`DailyDataUpdater`) -/

namespace DailyData

/-- One OHLCV row of the dataset CSV.  Dates are abstracted to naturals (the
source keeps `%Y-%m-%d` strings and compares them after `pd.to_datetime`). -/
structure Row where
  date : Nat
  openPrice : ℚ
  high : ℚ
  low : ℚ
  close : ℚ
  volume : ℤ
  deriving DecidableEq, Repr

/-- The `Date` column of a frame. -/
def datesOf (l : List Row) : List Nat := l.map Row.date

/-- `drop_duplicates(subset=['Date'], keep='last')`: keeps, in order, every
row whose date does not occur again later in the list. -/
def dropDuplicatesKeepLast : List Row → List Row
  | [] => []
  | r :: rs =>
    if r.date ∈ datesOf rs then dropDuplicatesKeepLast rs
    else r :: dropDuplicatesKeepLast rs

/-- Row comparison by date, the key of `sort_values('Date')`. -/
def dateLE (a b : Row) : Prop := a.date ≤ b.date

instance : DecidableRel dateLE := fun a b => inferInstanceAs (Decidable (a.date ≤ b.date))

instance : IsTotal Row dateLE := ⟨fun a b => Nat.le_total a.date b.date⟩

instance : IsTrans Row dateLE := ⟨fun _ _ _ h1 h2 => Nat.le_trans h1 h2⟩

/-- `sort_values('Date')`: a comparison sort on the date key (on the
duplicate-free frames the source applies it to, every comparison sort
agrees). -/
def sortByDate (l : List Row) : List Row := l.insertionSort dateLE

/-- `merge_new_data(existing_df, new_df)`: the two `None` short-circuits of
the source, then concat, date-keyed de-dup keeping the last (hence new) row,
and sort by date. -/
def merge_new_data (existing newDf : Option (List Row)) : Option (List Row) :=
  match existing, newDf with
  | none, n => n
  | some e, none => some e
  | some e, some n => some (sortByDate (dropDuplicatesKeepLast (e ++ n)))

/-- `apply_rolling_window(df)`: keep only the trailing `windowDays` rows. -/
def apply_rolling_window (windowDays : Nat) (df : List Row) : List Row :=
  if df.length ≤ windowDays then df else df.drop (df.length - windowDays)

/-- One ingest as performed by `update_daily` once a non-empty batch was
fetched: merge the batch into the (possibly absent) stored window, then trim
to the rolling window.  (`merge_new_data` with a `some` batch never returns
`none`, so the default is never used.) -/
def ingest (windowDays : Nat) (existing : Option (List Row)) (batch : List Row) : List Row :=
  apply_rolling_window windowDays ((merge_new_data existing (some batch)).getD batch)

/-- The sequence of windows produced by successive ingests starting from `w0`
(the stored window, absent on first run). -/
def ingestTrajectory (windowDays : Nat) (w0 : Option (List Row)) :
    List (List Row) → List (List Row)
  | [] => []
  | b :: bs =>
    let w := ingest windowDays w0 b
    w :: ingestTrajectory windowDays (some w) bs

/-- The window invariant of the spec: dates strictly increasing (hence unique
and sorted ascending). -/
def strictDates (l : List Row) : Prop := (datesOf l).Pairwise (· < ·)

instance (l : List Row) : Decidable (strictDates l) :=
  inferInstanceAs (Decidable ((datesOf l).Pairwise (· < ·)))

/-- Strict row comparison by date. -/
def dateLT (a b : Row) : Prop := a.date < b.date

instance : DecidableRel dateLT := fun a b => inferInstanceAs (Decidable (a.date < b.date))

instance : IsAntisymm Row dateLT :=
  ⟨fun _ _ h1 h2 => absurd (Nat.lt_trans h1 h2) (Nat.lt_irrefl _)⟩

/-- Membership of a row's date in a batch's dates, the de-dup criterion. -/
def dateIn (b : List Row) (r : Row) : Bool := decide (r.date ∈ datesOf b)

end DailyData

/-! ## Embedding of `weekly_retrainer.py` (`WeeklyRetrainer`) -/

namespace Retrainer

/-- Status of a retrain attempt. -/
inductive RStatus where
  | success
  | failed
  | skipped
  deriving DecidableEq, Repr

/-- One entry of `retraining_log.json` (a JSON object per line).  Keys that a
given path does not write are modelled as `none` (absent dictionary keys). -/
structure RetrainRecord where
  status : RStatus
  timestamp : String
  reason : Option String
  train_accuracy : Option ℚ
  test_accuracy : Option ℚ
  train_samples : Option Nat
  test_samples : Option Nat
  features_count : Option Nat
  model_path : Option String
  improvement : Option ℚ
  deriving DecidableEq, Repr

/-- A `skipped` or `failed` record carrying only status, reason, timestamp. -/
def mkBareRecord (st : RStatus) (reason ts : String) : RetrainRecord :=
  ⟨st, ts, some reason, none, none, none, none, none, none, none⟩

/-- Mutable state of `WeeklyRetrainer` together with the contents of its
append-only `retraining_log.json` file. -/
structure RState where
  last_retrain_date : Option String
  model_performance_history : List RetrainRecord
  retraining_log : List RetrainRecord
  deriving DecidableEq, Repr

/-- `_load_history`: the state built by the constructor, recovering
`last_retrain_date` from the `timestamp` field of the last log line —
whatever that record's status is.  `model_performance_history` always starts
empty (it is not recovered). -/
def initRState (log : List RetrainRecord) : RState :=
  ⟨log.getLast?.map RetrainRecord.timestamp, [], log⟩

/-- `should_retrain`: times are seconds (`parse` models
`datetime.fromisoformat`, `none` a parse exception); elapsed whole days are
`timedelta.days`, i.e. floor division by 86400. -/
def should_retrain (parse : String → Option Int) (now : Int)
    (lastRetrainDate : Option String) : Bool × String :=
  match lastRetrainDate with
  | none => (true, "First retraining (no history)")
  | some d =>
    match parse d with
    | none => (true, "Date parsing error, forcing retrain")
    | some t =>
      let daysSince := (now - t).fdiv 86400
      if 7 ≤ daysSince then
        (true, "Weekly schedule (" ++ toString daysSince ++ " days since last retrain)")
      else
        (false, "Not yet (only " ++ toString daysSince ++ " days since last retrain)")

/-- A raw row of the data CSV fed to feature engineering (opaque payload). -/
structure DRow where
  payload : Nat
  deriving DecidableEq, Repr

/-- An engineered feature row: the `Close` used to build the target, and the
feature-column values. -/
structure FRow where
  close : ℚ
  feats : List ℚ
  deriving DecidableEq, Repr

/-- Training/evaluation samples: features paired with the 0/1 target
(`1` iff the next row's `Close` is higher; the last row gets `0`, since
`NaN > x` is `False` before `astype(int)`). -/
def makeTargets : List FRow → List (FRow × Int)
  | [] => []
  | [r] => [(r, 0)]
  | r :: r' :: rs => (r, if r.close < r'.close then 1 else 0) :: makeTargets (r' :: rs)

/-- Result of `load_and_prepare_data` on its success path. -/
structure Prep where
  train : List (FRow × Int)
  test : List (FRow × Int)
  features_count : Nat
  deriving DecidableEq, Repr

/-- Environment of one `retrain_model` call: the clock, the parser, the CSV
read, and the external collaborators (feature engineering with its `dropna`,
the deterministic `train_test_split`, and the ensemble model's
train/evaluate/save whose exceptions surface as `.error`). -/
structure REnv where
  now : Int
  nowIso : String
  nowCompact : String
  parse : String → Option Int
  readData : Option (List DRow)
  engineer : List DRow → List (Option FRow)
  split : List (FRow × Int) → List (FRow × Int) × List (FRow × Int)
  trainEval : Prep → Except String (ℚ × ℚ)

/-- `load_and_prepare_data`: `none` when the CSV read raises, when the frame
is empty, or when fewer than 100 usable rows remain after feature engineering
and `dropna` (all three cases return `(None, None, None)` in the source);
otherwise the split train/test samples and the feature-column count. -/
def load_and_prepare_data (readData : Option (List DRow))
    (engineer : List DRow → List (Option FRow))
    (split : List (FRow × Int) → List (FRow × Int) × List (FRow × Int)) : Option Prep :=
  match readData with
  | none => none
  | some df =>
    if df.isEmpty then none
    else
      let usable := (engineer df).filterMap id
      if usable.length < 100 then none
      else
        let samples := makeTargets usable
        let tt := split samples
        some ⟨tt.1, tt.2, (usable.head?.map fun r => r.feats.length).getD 0⟩

/-- The `success` result dictionary of `retrain_model`: accuracies, sample
counts, feature count, model artifact path, and the improvement over the
previous in-memory success (`None` when `model_performance_history` is
empty; its entries are all success records, where `test_accuracy` is
present). -/
def successRecord (env : REnv) (s : RState) (prep : Prep) (acc : ℚ × ℚ) : RetrainRecord :=
  ⟨RStatus.success, env.nowIso, none, some acc.1, some acc.2,
    some prep.train.length, some prep.test.length, some prep.features_count,
    some ("models/model_" ++ env.nowCompact ++ ".pkl"),
    s.model_performance_history.getLast?.bind fun r =>
      r.test_accuracy.map fun a => acc.2 - a⟩

/-- `retrain_model`: returns the result record and the new state.  The
skipped path and the data-preparation-failure path return without logging;
the success path and the caught-exception path append their record to the
log.  Only the success path advances `last_retrain_date`. -/
def retrain_model (env : REnv) (s : RState) : RetrainRecord × RState :=
  let check := should_retrain env.parse env.now s.last_retrain_date
  if !check.1 then
    (mkBareRecord RStatus.skipped check.2 env.nowIso, s)
  else
    match load_and_prepare_data env.readData env.engineer env.split with
    | none => (mkBareRecord RStatus.failed "Data preparation failed" env.nowIso, s)
    | some prep =>
      match env.trainEval prep with
      | Except.error msg =>
        let errRec := mkBareRecord RStatus.failed msg env.nowIso
        (errRec, { s with retraining_log := s.retraining_log ++ [errRec] })
      | Except.ok acc =>
        let result := successRecord env s prep acc
        (result,
          { s with
            model_performance_history := s.model_performance_history ++ [result],
            last_retrain_date := some env.nowIso,
            retraining_log := s.retraining_log ++ [result] })

end Retrainer

/-! ## Embedding of `strategy.py` (`TradingStrategy`) -/

namespace Strategy

/-- A trading signal as consumed by the orchestrator's aggregation loop. -/
structure Signal where
  action : String
  price : ℚ
  confidence : ℚ
  deriving DecidableEq, Repr

/-- `execute_strategy`: computes a prediction on the dummy current feature
row `[50, 100, 45, 24000, 23800, 1]` and logs a BUY or SELL message; the
function body has no `return` statement, so the call evaluates to `None`. -/
def execute_strategy (predict : List ℚ → Int) : Option (List Signal) :=
  let currentFeatures : List ℚ := [50, 100, 45, 24000, 23800, 1]
  let _prediction := predict currentFeatures
  none

end Strategy

/-! ## Embedding of `main.py` (`AutonomousTradingBot`) -/

namespace Orchestrator

/-- `self.trading_stats` of `AutonomousTradingBot.__init__`. -/
structure TradingStats where
  total_signals : Nat
  buy_signals : Nat
  sell_signals : Nat
  successful_trades : Nat
  failed_trades : Nat
  deriving DecidableEq, Repr

/-- The all-zero initial statistics dictionary. -/
def initialStats : TradingStats := ⟨0, 0, 0, 0, 0⟩

/-- Step 4 of `execute_trading_cycle` (signal aggregation): `if signals:` is
Python truthiness, so both `None` and an empty list skip the branch; inside,
`total_signals` grows by `len(signals)` and each signal bumps `buy_signals`
on action `BUY`, else `sell_signals` on action `SELL`. -/
def signalStep (stats : TradingStats) (signals : Option (List Strategy.Signal)) : TradingStats :=
  match signals with
  | none => stats
  | some l =>
    if l.isEmpty then stats
    else
      { stats with
        total_signals := stats.total_signals + l.length,
        buy_signals := stats.buy_signals + l.countP (fun sg => decide (sg.action = "BUY")),
        sell_signals := stats.sell_signals + l.countP (fun sg => decide (sg.action = "SELL")) }

/-- Effect of one full `execute_trading_cycle` on `trading_stats`: the signal
aggregation branch is the only place in the whole cycle that touches the
three signal counters. -/
def cycleStatsUpdate (predict : List ℚ → Int) (stats : TradingStats) : TradingStats :=
  signalStep stats (Strategy.execute_strategy predict)

/-- The statistics after `n` trading cycles. -/
def statsAfterCycles (predict : List ℚ → Int) : Nat → TradingStats → TradingStats
  | 0, stats => stats
  | n + 1, stats => statsAfterCycles predict n (cycleStatsUpdate predict stats)

/-- The bot state threaded through the autonomous loop. -/
structure BotState where
  cycle_count : Nat
  last_daily_update : Option String
  last_weekly_retrain : Option String
  trading_stats : TradingStats
  validator : Validator.VState
  retrainer : Retrainer.RState
  deriving DecidableEq, Repr

/-- Observable events of `run_autonomous_loop`: a cycle execution (with
whether its body raised), the sleep between cycles, and the max-cycles
break. -/
inductive LoopEvent where
  | cycleRun (index : Nat) (errored : Bool)
  | slept (seconds : Nat)
  | stopped
  deriving DecidableEq, Repr

/-- `execute_trading_cycle`: the five steps run inside `try`/`except
Exception`; a body is given the cycle index and the state at entry and
returns the state as mutated so far together with the raised exception's
message, if any.  The exception is logged and swallowed: the partially
updated state is kept and the call always returns. -/
def executeTradingCycle (body : Nat → BotState → BotState × Option String)
    (n : Nat) (s : BotState) : BotState :=
  (body n s).1

/-- `run_autonomous_loop`, observed for `fuel` iterations of the `while True:`
loop: increment `cycle_count`, execute the cycle (exceptions contained),
break when `max_cycles and self.cycle_count >= max_cycles` (Python
truthiness: `max_cycles = 0` behaves like `None`), otherwise sleep
`interval` seconds and continue. -/
def runLoop (body : Nat → BotState → BotState × Option String)
    (maxCycles : Option Nat) (interval : Nat) :
    Nat → BotState → BotState × List LoopEvent
  | 0, s => (s, [])
  | fuel + 1, s =>
    let c := s.cycle_count + 1
    let sIn : BotState := { s with cycle_count := c }
    let s1 := executeTradingCycle body c sIn
    let ev := LoopEvent.cycleRun c (body c sIn).2.isSome
    let stop :=
      match maxCycles with
      | none => false
      | some m => decide (m ≠ 0) && decide (m ≤ c)
    if stop then (s1, [ev, LoopEvent.stopped])
    else
      let rest := runLoop body maxCycles interval fuel s1
      (rest.1, ev :: LoopEvent.slept interval :: rest.2)

/-- The bot state after `n` completed cycles (only the state component of a
cycle's outcome ever flows onward). -/
def loopState (body : Nat → BotState → BotState × Option String) :
    Nat → BotState → BotState
  | 0, s => s
  | n + 1, s =>
    let c := s.cycle_count + 1
    loopState body n (executeTradingCycle body c { s with cycle_count := c })

/-- Forget whether a cycle errored (used to state that the loop's control
flow does not depend on it). -/
def scrubErrors : LoopEvent → LoopEvent
  | LoopEvent.cycleRun n _ => LoopEvent.cycleRun n false
  | e => e

/-- Whether the body of the `i`-th cycle (counting from the start state `s`)
raises. -/
def cycleErrored (body : Nat → BotState → BotState × Option String) (i : Nat)
    (s : BotState) : Bool :=
  let s0 := loopState body i s
  (body (s0.cycle_count + 1) { s0 with cycle_count := s0.cycle_count + 1 }).2.isSome

end Orchestrator

/-! ## Helper lemmas -/

/-- `mapM` over `Option` fails as soon as one element fails. -/
theorem optionMapM_none_of_mem {α β : Type} (p : α → Option β) :
    ∀ l : List α, (∃ a ∈ l, p a = none) → l.mapM p = none := by
  intro l
  induction l with
  | nil => rintro ⟨a, ha, -⟩; cases ha
  | cons b t ih =>
    rintro ⟨a, ha, hpa⟩
    rw [List.mapM_cons]
    rcases List.mem_cons.mp ha with h | h
    · subst h; rw [hpa]; rfl
    · cases hb : p b
      · rfl
      · rw [ih ⟨a, h, hpa⟩]; rfl

/-- `retrain_model` on the skipped path. -/
theorem retrainModel_skipped (env : Retrainer.REnv) (s : Retrainer.RState)
    (h : (Retrainer.should_retrain env.parse env.now s.last_retrain_date).1 = false) :
    Retrainer.retrain_model env s =
      (Retrainer.mkBareRecord Retrainer.RStatus.skipped
        (Retrainer.should_retrain env.parse env.now s.last_retrain_date).2 env.nowIso, s) := by
  simp [Retrainer.retrain_model, h]

/-- `retrain_model` on the data-preparation-failure path. -/
theorem retrainModel_prepFailed (env : Retrainer.REnv) (s : Retrainer.RState)
    (h : (Retrainer.should_retrain env.parse env.now s.last_retrain_date).1 = true)
    (hp : Retrainer.load_and_prepare_data env.readData env.engineer env.split = none) :
    Retrainer.retrain_model env s =
      (Retrainer.mkBareRecord Retrainer.RStatus.failed "Data preparation failed" env.nowIso,
        s) := by
  simp [Retrainer.retrain_model, h, hp]

/-- `retrain_model` on the caught-exception path. -/
theorem retrainModel_trainError (env : Retrainer.REnv) (s : Retrainer.RState)
    (prep : Retrainer.Prep) (msg : String)
    (h : (Retrainer.should_retrain env.parse env.now s.last_retrain_date).1 = true)
    (hp : Retrainer.load_and_prepare_data env.readData env.engineer env.split = some prep)
    (ht : env.trainEval prep = Except.error msg) :
    Retrainer.retrain_model env s =
      (Retrainer.mkBareRecord Retrainer.RStatus.failed msg env.nowIso,
        { s with retraining_log :=
            s.retraining_log ++ [Retrainer.mkBareRecord Retrainer.RStatus.failed msg env.nowIso] }) := by
  simp [Retrainer.retrain_model, h, hp, ht]

/-- `retrain_model` on the success path. -/
theorem retrainModel_success (env : Retrainer.REnv) (s : Retrainer.RState)
    (prep : Retrainer.Prep) (acc : ℚ × ℚ)
    (h : (Retrainer.should_retrain env.parse env.now s.last_retrain_date).1 = true)
    (hp : Retrainer.load_and_prepare_data env.readData env.engineer env.split = some prep)
    (ht : env.trainEval prep = Except.ok acc) :
    Retrainer.retrain_model env s =
      (Retrainer.successRecord env s prep acc,
        { s with
          model_performance_history :=
            s.model_performance_history ++ [Retrainer.successRecord env s prep acc],
          last_retrain_date := some env.nowIso,
          retraining_log := s.retraining_log ++ [Retrainer.successRecord env s prep acc] }) := by
  simp [Retrainer.retrain_model, h, hp, ht]

/-! ## Claims -/

/-- C1, counterexample: on a validator whose `recent_accuracy` (1/2) is below
the threshold (7/10), `reset_metrics()` does clear the history but leaves
`recent_accuracy` at 1/2, not at the optimistic default 1.0. -/
theorem C1_counterexample :
    (Validator.reset_metrics ⟨7/10, [3/5], 1/2⟩).performance_history = [] ∧
    Validator.needs_retraining ⟨7/10, [3/5], 1/2⟩ = true ∧
    (Validator.reset_metrics ⟨7/10, [3/5], 1/2⟩).recent_accuracy = 1/2 ∧
    ¬ (Validator.reset_metrics ⟨7/10, [3/5], 1/2⟩).recent_accuracy = 1 := by
  refine ⟨rfl, ?_, rfl, ?_⟩
  · simp only [Validator.needs_retraining, decide_eq_true_eq]
    norm_num
  · show ¬ ((1 : ℚ)/2 = 1)
    norm_num

/-- C1, amended: after `reset_metrics()` the accuracy history is empty, but
`recent_accuracy` keeps exactly its previous value (the optimistic default is
not restored); consequently `needs_retraining()` is unchanged, and a
validator below threshold before the call is still below threshold after. -/
theorem C1_reset_metrics_amended (s : Validator.VState) :
    (Validator.reset_metrics s).performance_history = [] ∧
    (Validator.reset_metrics s).recent_accuracy = s.recent_accuracy ∧
    Validator.needs_retraining (Validator.reset_metrics s) = Validator.needs_retraining s :=
  ⟨rfl, rfl, rfl⟩

/-- C4: `should_retrain()` returns the first-retraining reason when no
timestamp is stored, forces a retrain on an unparsable timestamp, and
otherwise compares elapsed whole days to 7: exactly 6 whole days gives
`false`, 7 or more gives `true` with the weekly-schedule reason. -/
theorem C4_should_retrain_cases (parse : String → Option Int) (now : Int)
    (last : Option String) :
    (last = none →
      Retrainer.should_retrain parse now last = (true, "First retraining (no history)")) ∧
    (∀ d, last = some d → parse d = none →
      Retrainer.should_retrain parse now last = (true, "Date parsing error, forcing retrain")) ∧
    (∀ d t, last = some d → parse d = some t → (now - t).fdiv 86400 = 6 →
      (Retrainer.should_retrain parse now last).1 = false) ∧
    (∀ d t, last = some d → parse d = some t → 7 ≤ (now - t).fdiv 86400 →
      Retrainer.should_retrain parse now last =
        (true, "Weekly schedule (" ++ toString ((now - t).fdiv 86400)
          ++ " days since last retrain)")) := by
  refine ⟨?_, ?_, ?_, ?_⟩
  · rintro rfl; rfl
  · rintro d rfl hp; simp [Retrainer.should_retrain, hp]
  · rintro d t rfl hp hd; simp [Retrainer.should_retrain, hp, hd]
  · rintro d t rfl hp hd; simp [Retrainer.should_retrain, hp, hd]

/-- C4 witness: with a parser mapping everything to time 0, `should_retrain`
is `false` six whole days later and the no-history case forces the first
retraining. -/
theorem C4_witness :
    (Retrainer.should_retrain (fun _ => some 0) (6 * 86400) (some "2024-01-01")).1 = false ∧
    Retrainer.should_retrain (fun _ => some 0) (7 * 86400) none
      = (true, "First retraining (no history)") := by
  constructor
  · exact (C4_should_retrain_cases (fun _ => some 0) (6 * 86400)
      (some "2024-01-01")).2.2.1 "2024-01-01" 0 rfl rfl (by decide)
  · exact (C4_should_retrain_cases (fun _ => some 0) (7 * 86400) none).1 rfl

/-- C7: every failure of `validate_recent_performance()` is caught and leaves
the whole validator state — in particular `recent_accuracy` and hence
`needs_retraining()` — unchanged; missing data, an empty frame (zero usable
samples) and a failing prediction all are such failures. -/
theorem C7_validation_failure_preserves_accuracy
    (readCsv : Option (List Validator.DataRow)) (predict : Validator.DataRow → Option ℤ)
    (s : Validator.VState) :
    (Validator.validationAttempt readCsv predict = none →
      Validator.validate_recent_performance readCsv predict s = s) ∧
    (Validator.validationAttempt readCsv predict = none →
      Validator.needs_retraining (Validator.validate_recent_performance readCsv predict s)
        = Validator.needs_retraining s) ∧
    Validator.validationAttempt none predict = none ∧
    Validator.validationAttempt (some []) predict = none ∧
    (∀ rows : List Validator.DataRow, ∀ r ∈ rows.drop (rows.length - 10),
      predict r = none → Validator.validationAttempt (some rows) predict = none) := by
  have hmain : Validator.validationAttempt readCsv predict = none →
      Validator.validate_recent_performance readCsv predict s = s := by
    intro h
    unfold Validator.validate_recent_performance
    rw [h]
  refine ⟨hmain, fun h => by rw [hmain h], rfl, rfl, ?_⟩
  intro rows r hr hpr
  have hm : (rows.drop (rows.length - 10)).mapM predict = none :=
    optionMapM_none_of_mem predict _ ⟨r, hr, hpr⟩
  simp only [Validator.validationAttempt, hm]

/-- C7 witness: a failing CSV read leaves a concrete below-threshold
validator state exactly as it was. -/
theorem C7_witness :
    Validator.validate_recent_performance none (fun _ => none) ⟨7/10, [], 1/2⟩
      = ⟨7/10, [], 1/2⟩ :=
  (C7_validation_failure_preserves_accuracy none (fun _ => none) ⟨7/10, [], 1/2⟩).1 rfl

/-- C10: `execute_strategy()` always returns `None`, so the orchestrator's
signal-aggregation branch is skipped in every cycle and the three signal
counters stay exactly 0 after any number of cycles. -/
theorem C10_no_signals (predict : List ℚ → Int) (n : Nat)
    (stats : Orchestrator.TradingStats) :
    Strategy.execute_strategy predict = none ∧
    Orchestrator.cycleStatsUpdate predict stats = stats ∧
    (Orchestrator.statsAfterCycles predict n Orchestrator.initialStats).total_signals = 0 ∧
    (Orchestrator.statsAfterCycles predict n Orchestrator.initialStats).buy_signals = 0 ∧
    (Orchestrator.statsAfterCycles predict n Orchestrator.initialStats).sell_signals = 0 := by
  have hc : ∀ st : Orchestrator.TradingStats, Orchestrator.cycleStatsUpdate predict st = st :=
    fun _ => rfl
  have hs : ∀ (m : Nat) (st : Orchestrator.TradingStats),
      Orchestrator.statsAfterCycles predict m st = st := by
    intro m
    induction m with
    | zero => intro st; rfl
    | succ k ih =>
      intro st
      show Orchestrator.statsAfterCycles predict k (Orchestrator.cycleStatsUpdate predict st) = st
      rw [hc, ih]
  exact ⟨rfl, hc stats, by rw [hs]; rfl, by rw [hs]; rfl, by rw [hs]; rfl⟩

/-- C2, counterexample: a `retrain_model()` call that takes the skipped path
(6 whole days elapsed) returns a `skipped` record but appends nothing to the
event log — not exactly one record as claimed. -/
theorem C2_counterexample :
    (Retrainer.retrain_model
        ⟨518400, "T", "TC", fun _ => some 0, none, fun _ => [], fun l => (l, []),
          fun _ => Except.error "e"⟩
        ⟨some "d", [], []⟩).1.status = Retrainer.RStatus.skipped ∧
    (Retrainer.retrain_model
        ⟨518400, "T", "TC", fun _ => some 0, none, fun _ => [], fun l => (l, []),
          fun _ => Except.error "e"⟩
        ⟨some "d", [], []⟩).2.retraining_log = [] ∧
    ¬ ((Retrainer.retrain_model
        ⟨518400, "T", "TC", fun _ => some 0, none, fun _ => [], fun l => (l, []),
          fun _ => Except.error "e"⟩
        ⟨some "d", [], []⟩).2.retraining_log
      = [] ++ [(Retrainer.retrain_model
        ⟨518400, "T", "TC", fun _ => some 0, none, fun _ => [], fun l => (l, []),
          fun _ => Except.error "e"⟩
        ⟨some "d", [], []⟩).1]) := by
  refine ⟨rfl, rfl, ?_⟩
  intro h
  exact List.cons_ne_nil _ _ h.symm

/-- C2, amended: a `retrain_model()` call appends at most one record, and
never mutates or deletes existing entries (the new log is always the old log
plus an optional copy of the returned record): the success path and the
caught-exception path append exactly the returned record, while the skipped
path and the data-preparation-failure path return without logging. -/
theorem C2_retrain_log_append (env : Retrainer.REnv) (s : Retrainer.RState) :
    (∃ t, (Retrainer.retrain_model env s).2.retraining_log = s.retraining_log ++ t ∧
      (t = [] ∨ t = [(Retrainer.retrain_model env s).1])) ∧
    ((Retrainer.retrain_model env s).1.status = Retrainer.RStatus.skipped →
      (Retrainer.retrain_model env s).2.retraining_log = s.retraining_log) ∧
    ((Retrainer.retrain_model env s).1.status = Retrainer.RStatus.success →
      (Retrainer.retrain_model env s).2.retraining_log
        = s.retraining_log ++ [(Retrainer.retrain_model env s).1]) ∧
    ((Retrainer.should_retrain env.parse env.now s.last_retrain_date).1 = true →
      Retrainer.load_and_prepare_data env.readData env.engineer env.split = none →
      (Retrainer.retrain_model env s).2.retraining_log = s.retraining_log) ∧
    (∀ prep msg, (Retrainer.should_retrain env.parse env.now s.last_retrain_date).1 = true →
      Retrainer.load_and_prepare_data env.readData env.engineer env.split = some prep →
      env.trainEval prep = Except.error msg →
      (Retrainer.retrain_model env s).2.retraining_log
        = s.retraining_log ++ [(Retrainer.retrain_model env s).1]) := by
  rcases hok : (Retrainer.should_retrain env.parse env.now s.last_retrain_date).1 with _ | _
  · rw [retrainModel_skipped env s hok]
    refine ⟨⟨[], by simp, Or.inl rfl⟩, fun _ => by simp, ?_, ?_, ?_⟩
    · intro h; simp [Retrainer.mkBareRecord] at h
    · intro h; exact Bool.noConfusion h
    · intro prep msg h; exact Bool.noConfusion h
  · rcases hprep : Retrainer.load_and_prepare_data env.readData env.engineer env.split with
      _ | prep
    · rw [retrainModel_prepFailed env s hok hprep]
      refine ⟨⟨[], by simp, Or.inl rfl⟩, fun _ => by simp, ?_, fun _ _ => rfl, ?_⟩
      · intro h; simp [Retrainer.mkBareRecord] at h
      · intro prep msg _ h; exact Option.noConfusion h
    · rcases hte : env.trainEval prep with msg | acc
      · rw [retrainModel_trainError env s prep msg hok hprep hte]
        refine ⟨⟨[Retrainer.mkBareRecord Retrainer.RStatus.failed msg env.nowIso], rfl,
          Or.inr rfl⟩, ?_, ?_, ?_, fun _ _ _ _ _ => rfl⟩
        · intro h; simp [Retrainer.mkBareRecord] at h
        · intro h; simp [Retrainer.mkBareRecord] at h
        · intro _ h; exact Option.noConfusion h
      · rw [retrainModel_success env s prep acc hok hprep hte]
        refine ⟨⟨[Retrainer.successRecord env s prep acc], rfl, Or.inr rfl⟩,
          ?_, fun _ => rfl, ?_, ?_⟩
        · intro h; simp [Retrainer.successRecord] at h
        · intro _ h; exact Option.noConfusion h
        · intro prep' msg' _ hp hte'
          cases hp
          rw [hte] at hte'

/-- C2 witness: a skipped call (6 whole days elapsed) leaves the concrete
empty event log untouched. -/
theorem C2_witness :
    (Retrainer.retrain_model
        ⟨518400, "T", "TC", fun _ => some 0, none, fun _ => [], fun l => (l, []),
          fun _ => Except.error "e"⟩
        ⟨some "d", [], [Retrainer.mkBareRecord Retrainer.RStatus.failed "old" "t0"]⟩).2.retraining_log
      = [Retrainer.mkBareRecord Retrainer.RStatus.failed "old" "t0"] :=
  (C2_retrain_log_append _ _).2.1 rfl

/-- C3, counterexample: with fewer than 100 usable rows after feature
engineering, the returned failed record's reason is the generic
`"Data preparation failed"`, not `"insufficient data"` (the insufficient-data
detail is only written to the logger). -/
theorem C3_counterexample :
    (Retrainer.retrain_model
        ⟨0, "T", "TC", fun _ => none, some [⟨0⟩], fun _ => [], fun l => (l, []),
          fun _ => Except.error "e"⟩
        ⟨none, [], []⟩).1.status = Retrainer.RStatus.failed ∧
    (Retrainer.retrain_model
        ⟨0, "T", "TC", fun _ => none, some [⟨0⟩], fun _ => [], fun l => (l, []),
          fun _ => Except.error "e"⟩
        ⟨none, [], []⟩).1.reason = some "Data preparation failed" ∧
    ¬ ((Retrainer.retrain_model
        ⟨0, "T", "TC", fun _ => none, some [⟨0⟩], fun _ => [], fun l => (l, []),
          fun _ => Except.error "e"⟩
        ⟨none, [], []⟩).1.reason = some "insufficient data") := by
  refine ⟨rfl, rfl, ?_⟩
  intro h
  rw [show (Retrainer.retrain_model
        ⟨0, "T", "TC", fun _ => none, some [⟨0⟩], fun _ => [], fun l => (l, []),
          fun _ => Except.error "e"⟩
        ⟨none, [], []⟩).1.reason = some "Data preparation failed" from rfl] at h
  exact absurd (Option.some.inj h) (by decide)

/-- C3, amended: if fewer than 100 usable rows remain after feature
engineering, `retrain_model()` returns a record with status `failed` and
reason `"Data preparation failed"` (not the literal "insufficient data"),
`last_retrain_date` is unchanged by the call, and an immediately subsequent
`should_retrain()` (same clock reading) still returns true. -/
theorem C3_insufficient_data_amended (env : Retrainer.REnv) (s : Retrainer.RState)
    (df : List Retrainer.DRow)
    (hok : (Retrainer.should_retrain env.parse env.now s.last_retrain_date).1 = true)
    (hread : env.readData = some df) (hne : df ≠ [])
    (hlt : ((env.engineer df).filterMap id).length < 100) :
    (Retrainer.retrain_model env s).1.status = Retrainer.RStatus.failed ∧
    (Retrainer.retrain_model env s).1.reason = some "Data preparation failed" ∧
    (Retrainer.retrain_model env s).2.last_retrain_date = s.last_retrain_date ∧
    (Retrainer.should_retrain env.parse env.now
      (Retrainer.retrain_model env s).2.last_retrain_date).1 = true := by
  have hp : Retrainer.load_and_prepare_data env.readData env.engineer env.split = none := by
    rw [hread]
    simp [Retrainer.load_and_prepare_data, List.isEmpty_iff, hne, hlt]
  rw [retrainModel_prepFailed env s hok hp]
  exact ⟨rfl, rfl, rfl, hok⟩

/-- C3 witness: a concrete sub-100-row run returns the failed record, keeps
the absent timestamp, and the immediate re-check still says retrain. -/
theorem C3_witness :
    (Retrainer.retrain_model
        ⟨0, "T", "TC", fun _ => some 0, some [⟨1⟩], fun _ => [], fun l => (l, []),
          fun _ => Except.error "e"⟩
        ⟨none, [], []⟩).1.status = Retrainer.RStatus.failed ∧
    (Retrainer.retrain_model
        ⟨0, "T", "TC", fun _ => some 0, some [⟨1⟩], fun _ => [], fun l => (l, []),
          fun _ => Except.error "e"⟩
        ⟨none, [], []⟩).1.reason = some "Data preparation failed" ∧
    (Retrainer.retrain_model
        ⟨0, "T", "TC", fun _ => some 0, some [⟨1⟩], fun _ => [], fun l => (l, []),
          fun _ => Except.error "e"⟩
        ⟨none, [], []⟩).2.last_retrain_date = none ∧
    (Retrainer.should_retrain (fun _ => some 0) 0
      (Retrainer.retrain_model
        ⟨0, "T", "TC", fun _ => some 0, some [⟨1⟩], fun _ => [], fun l => (l, []),
          fun _ => Except.error "e"⟩
        ⟨none, [], []⟩).2.last_retrain_date).1 = true :=
  C3_insufficient_data_amended
    ⟨0, "T", "TC", fun _ => some 0, some [⟨1⟩], fun _ => [], fun l => (l, []),
      fun _ => Except.error "e"⟩
    ⟨none, [], []⟩ [⟨1⟩] rfl rfl (by simp) (by decide)

/-- C9: at construction the scheduler recovers `last_retrain_date` from the
timestamp of the last log record regardless of its status; with a `failed`
last record parsed to a time less than 7 whole days ago, `should_retrain()`
returns false after a restart — even though, within a running process, any
non-success `retrain_model()` outcome leaves `last_retrain_date` unchanged. -/
theorem C9_restart_trusts_last_record :
    (∀ (log : List Retrainer.RetrainRecord) (r : Retrainer.RetrainRecord),
      log.getLast? = some r →
      (Retrainer.initRState log).last_retrain_date = some r.timestamp) ∧
    (∀ (log : List Retrainer.RetrainRecord) (r : Retrainer.RetrainRecord)
      (parse : String → Option Int) (now t : Int),
      log.getLast? = some r → r.status = Retrainer.RStatus.failed →
      parse r.timestamp = some t → (now - t).fdiv 86400 < 7 →
      (Retrainer.should_retrain parse now
        (Retrainer.initRState log).last_retrain_date).1 = false) ∧
    (∀ (env : Retrainer.REnv) (s : Retrainer.RState),
      (Retrainer.retrain_model env s).1.status ≠ Retrainer.RStatus.success →
      (Retrainer.retrain_model env s).2.last_retrain_date = s.last_retrain_date) := by
  refine ⟨?_, ?_, ?_⟩
  · intro log r h
    simp [Retrainer.initRState, h]
  · intro log r parse now t hlast hst hp hd
    have hn : ¬ ((7 : Int) ≤ (now - t).fdiv 86400) := not_le.mpr hd
    simp [Retrainer.initRState, hlast, Retrainer.should_retrain, hp, hn]
  · intro env s h
    rcases hok : (Retrainer.should_retrain env.parse env.now s.last_retrain_date).1 with _ | _
    · rw [retrainModel_skipped env s hok]
    · rcases hprep : Retrainer.load_and_prepare_data env.readData env.engineer env.split with
        _ | prep
      · rw [retrainModel_prepFailed env s hok hprep]
      · rcases hte : env.trainEval prep with msg | acc
        · rw [retrainModel_trainError env s prep msg hok hprep hte]
        · rw [retrainModel_success env s prep acc hok hprep hte] at h
          exact absurd rfl h

/-- C9 witness: after recovering from a log whose last record is `failed`
with a timestamp one day old, `should_retrain()` says false. -/
theorem C9_witness :
    (Retrainer.should_retrain (fun _ => some 0) 86400
      (Retrainer.initRState
        [Retrainer.mkBareRecord Retrainer.RStatus.failed "err" "t1"]).last_retrain_date).1
      = false :=
  C9_restart_trusts_last_record.2.1
    [Retrainer.mkBareRecord Retrainer.RStatus.failed "err" "t1"]
    (Retrainer.mkBareRecord Retrainer.RStatus.failed "err" "t1")
    (fun _ => some 0) 86400 0 rfl rfl rfl (by decide)

/-- One unfolding step of `runLoop` with unlimited cycles. -/
theorem runLoop_none_succ
    (body : Nat → Orchestrator.BotState → Orchestrator.BotState × Option String)
    (interval n : Nat) (s : Orchestrator.BotState) :
    Orchestrator.runLoop body none interval (n + 1) s =
      ((Orchestrator.runLoop body none interval n
          (Orchestrator.executeTradingCycle body (s.cycle_count + 1)
            { s with cycle_count := s.cycle_count + 1 })).1,
        Orchestrator.LoopEvent.cycleRun (s.cycle_count + 1)
            (body (s.cycle_count + 1) { s with cycle_count := s.cycle_count + 1 }).2.isSome
          :: Orchestrator.LoopEvent.slept interval
          :: (Orchestrator.runLoop body none interval n
              (Orchestrator.executeTradingCycle body (s.cycle_count + 1)
                { s with cycle_count := s.cycle_count + 1 })).2) := rfl

/-- One unfolding step of `loopState`. -/
theorem loopState_succ
    (body : Nat → Orchestrator.BotState → Orchestrator.BotState × Option String)
    (n : Nat) (s : Orchestrator.BotState) :
    Orchestrator.loopState body (n + 1) s =
      Orchestrator.loopState body n
        (Orchestrator.executeTradingCycle body (s.cycle_count + 1)
          { s with cycle_count := s.cycle_count + 1 }) := rfl

/-- With unlimited cycles, the final state is the `n`-fold cycle iteration:
every cycle executes, whatever the bodies raised. -/
theorem runLoop_none_state
    (body : Nat → Orchestrator.BotState → Orchestrator.BotState × Option String)
    (interval : Nat) :
    ∀ (n : Nat) (s : Orchestrator.BotState),
      (Orchestrator.runLoop body none interval n s).1 = Orchestrator.loopState body n s := by
  intro n
  induction n with
  | zero => intro s; rfl
  | succ k ih =>
    intro s
    rw [runLoop_none_succ, loopState_succ]
    exact ih _

/-- With unlimited cycles, the event trace pairs every cycle with the sleep
that follows it, and contains no stop event. -/
theorem runLoop_none_events
    (body : Nat → Orchestrator.BotState → Orchestrator.BotState × Option String)
    (interval : Nat) :
    ∀ (n : Nat) (s : Orchestrator.BotState),
      (Orchestrator.runLoop body none interval n s).2.length = 2 * n ∧
      Orchestrator.LoopEvent.stopped ∉ (Orchestrator.runLoop body none interval n s).2 ∧
      (∀ k, k < n →
        (Orchestrator.runLoop body none interval n s).2.get? (2 * k)
          = some (Orchestrator.LoopEvent.cycleRun
              ((Orchestrator.loopState body k s).cycle_count + 1)
              (Orchestrator.cycleErrored body k s)) ∧
        (Orchestrator.runLoop body none interval n s).2.get? (2 * k + 1)
          = some (Orchestrator.LoopEvent.slept interval)) := by
  intro n
  induction n with
  | zero =>
    intro s
    exact ⟨rfl, by simp [Orchestrator.runLoop], fun k hk => absurd hk (Nat.not_lt_zero k)⟩
  | succ m ih =>
    intro s
    rw [runLoop_none_succ]
    obtain ⟨ihlen, ihstop, ihget⟩ :=
      ih (Orchestrator.executeTradingCycle body (s.cycle_count + 1)
        { s with cycle_count := s.cycle_count + 1 })
    refine ⟨by simp [ihlen]; ring, ?_, ?_⟩
    · intro hmem
      rcases List.mem_cons.mp hmem with h | hmem
      · exact Orchestrator.LoopEvent.noConfusion h
      · rcases List.mem_cons.mp hmem with h | hmem
        · exact Orchestrator.LoopEvent.noConfusion h
        · exact ihstop hmem
    · intro k hk
      cases k with
      | zero => exact ⟨rfl, rfl⟩
      | succ j =>
        have hj : j < m := Nat.lt_of_succ_lt_succ hk
        have h2 : 2 * (j + 1) = 2 * j + 1 + 1 := by ring
        rw [h2]
        simp only [List.get?_cons_succ]
        exact ihget j hj

/-- The loop's control flow and resulting state do not depend on whether the
cycle bodies raised: two bodies producing the same states (but possibly
different exceptions) drive the loop identically. -/
theorem runLoop_error_independent
    (b1 b2 : Nat → Orchestrator.BotState → Orchestrator.BotState × Option String)
    (h : ∀ c st, (b1 c st).1 = (b2 c st).1) (maxCycles : Option Nat) (interval : Nat) :
    ∀ (fuel : Nat) (s : Orchestrator.BotState),
      (Orchestrator.runLoop b1 maxCycles interval fuel s).1
        = (Orchestrator.runLoop b2 maxCycles interval fuel s).1 ∧
      (Orchestrator.runLoop b1 maxCycles interval fuel s).2.map Orchestrator.scrubErrors
        = (Orchestrator.runLoop b2 maxCycles interval fuel s).2.map Orchestrator.scrubErrors := by
  intro fuel
  induction fuel with
  | zero => intro s; exact ⟨rfl, rfl⟩
  | succ k ih =>
    intro s
    have hstate : Orchestrator.executeTradingCycle b1 (s.cycle_count + 1)
        { s with cycle_count := s.cycle_count + 1 }
        = Orchestrator.executeTradingCycle b2 (s.cycle_count + 1)
          { s with cycle_count := s.cycle_count + 1 } := h _ _
    obtain ⟨ih1, ih2⟩ := ih (Orchestrator.executeTradingCycle b1 (s.cycle_count + 1)
      { s with cycle_count := s.cycle_count + 1 })
    rw [hstate] at ih1 ih2
    simp only [Orchestrator.runLoop]
    cases maxCycles with
    | none =>
      refine ⟨?_, ?_⟩
      · simpa [hstate] using ih1
      · simp only [List.map_cons, Orchestrator.scrubErrors]
        rw [hstate]
        exact congrArg (fun t => Orchestrator.LoopEvent.cycleRun (s.cycle_count + 1) false ::
          Orchestrator.LoopEvent.slept interval :: t) ih2
    | some m =>
      by_cases hstop : (decide (m ≠ 0) && decide (m ≤ s.cycle_count + 1)) = true
      · simp only [hstop, if_true, hstate]
        exact ⟨trivial, by simp [Orchestrator.scrubErrors]⟩
      · simp only [hstop, if_false, Bool.false_eq_true]
        refine ⟨?_, ?_⟩
        · simpa [hstate] using ih1
        · simp only [List.map_cons, Orchestrator.scrubErrors]
          rw [hstate]
          exact congrArg (fun t => Orchestrator.LoopEvent.cycleRun (s.cycle_count + 1) false ::
            Orchestrator.LoopEvent.slept interval :: t) ih2

/-- C8: with unlimited cycles, every cycle of `run_autonomous_loop` executes
to completion whatever its body raised: exceptions are caught at the cycle
boundary (`executeTradingCycle` always returns), each of the `n` observed
cycles appears in the trace immediately followed by its sleep, no stop event
occurs, and the loop's control flow and final state are independent of which
cycles raised — for any `max_cycles` setting. -/
theorem C8_fault_isolation
    (body : Nat → Orchestrator.BotState → Orchestrator.BotState × Option String)
    (interval n : Nat) (s : Orchestrator.BotState) :
    ((Orchestrator.runLoop body none interval n s).1 = Orchestrator.loopState body n s) ∧
    ((Orchestrator.runLoop body none interval n s).2.length = 2 * n) ∧
    (Orchestrator.LoopEvent.stopped ∉ (Orchestrator.runLoop body none interval n s).2) ∧
    (∀ k, k < n →
      (Orchestrator.runLoop body none interval n s).2.get? (2 * k)
        = some (Orchestrator.LoopEvent.cycleRun
            ((Orchestrator.loopState body k s).cycle_count + 1)
            (Orchestrator.cycleErrored body k s)) ∧
      (Orchestrator.runLoop body none interval n s).2.get? (2 * k + 1)
        = some (Orchestrator.LoopEvent.slept interval)) ∧
    (∀ (b2 : Nat → Orchestrator.BotState → Orchestrator.BotState × Option String)
      (maxCycles : Option Nat) (fuel : Nat) (s0 : Orchestrator.BotState),
      (∀ c st, (body c st).1 = (b2 c st).1) →
      (Orchestrator.runLoop body maxCycles interval fuel s0).1
        = (Orchestrator.runLoop b2 maxCycles interval fuel s0).1 ∧
      (Orchestrator.runLoop body maxCycles interval fuel s0).2.map Orchestrator.scrubErrors
        = (Orchestrator.runLoop b2 maxCycles interval fuel s0).2.map Orchestrator.scrubErrors) := by
  obtain ⟨hlen, hstop, hget⟩ := runLoop_none_events body interval n s
  exact ⟨runLoop_none_state body interval n s, hlen, hstop, hget,
    fun b2 maxCycles fuel s0 h =>
      runLoop_error_independent body b2 h maxCycles interval fuel s0⟩

/-- C8 witness: a body that always raises still yields a trace whose first
cycle runs (flagged as errored) and is followed by the sleep event. -/
theorem C8_witness :
    (Orchestrator.runLoop (fun _ st => (st, some "boom")) none 5 1
        ⟨0, none, none, ⟨0, 0, 0, 0, 0⟩, ⟨7/10, [], 1⟩, ⟨none, [], []⟩⟩).2.get? 0
      = some (Orchestrator.LoopEvent.cycleRun 1 true) ∧
    (Orchestrator.runLoop (fun _ st => (st, some "boom")) none 5 1
        ⟨0, none, none, ⟨0, 0, 0, 0, 0⟩, ⟨7/10, [], 1⟩, ⟨none, [], []⟩⟩).2.get? 1
      = some (Orchestrator.LoopEvent.slept 5) := by
  obtain ⟨h1, h2⟩ := (C8_fault_isolation (fun _ st => (st, some "boom")) 5 1
    ⟨0, none, none, ⟨0, 0, 0, 0, 0⟩, ⟨7/10, [], 1⟩, ⟨none, [], []⟩⟩).2.2.2.1 0 Nat.zero_lt_one
  exact ⟨h1, h2⟩

namespace DailyData

theorem datesOf_append (x y : List Row) : datesOf (x ++ y) = datesOf x ++ datesOf y :=
  List.map_append _ _ _

theorem datesOf_cons (r : Row) (l : List Row) : datesOf (r :: l) = r.date :: datesOf l := rfl

/-- The de-dup keeps a subsequence of its input. -/
theorem dropDuplicatesKeepLast_sublist :
    ∀ l : List Row, List.Sublist (dropDuplicatesKeepLast l) l := by
  intro l
  induction l with
  | nil => exact List.Sublist.refl _
  | cons r rs ih =>
    by_cases h : r.date ∈ datesOf rs
    · rw [dropDuplicatesKeepLast, if_pos h]
      exact ih.cons r
    · rw [dropDuplicatesKeepLast, if_neg h]
      exact ih.cons₂ r

/-- After the de-dup, dates are pairwise distinct. -/
theorem dropDuplicatesKeepLast_nodup :
    ∀ l : List Row, (datesOf (dropDuplicatesKeepLast l)).Nodup := by
  intro l
  induction l with
  | nil => exact List.nodup_nil
  | cons r rs ih =>
    by_cases h : r.date ∈ datesOf rs
    · rw [dropDuplicatesKeepLast, if_pos h]
      exact ih
    · rw [dropDuplicatesKeepLast, if_neg h, datesOf_cons]
      refine List.nodup_cons.mpr ⟨?_, ih⟩
      intro hmem
      exact h (((dropDuplicatesKeepLast_sublist rs).map Row.date).subset hmem)

/-- A frame with pairwise-distinct dates is left unchanged by the de-dup. -/
theorem dropDuplicatesKeepLast_eq_self :
    ∀ {l : List Row}, (datesOf l).Nodup → dropDuplicatesKeepLast l = l := by
  intro l
  induction l with
  | nil => intro _; rfl
  | cons r rs ih =>
    intro h
    rcases List.nodup_cons.mp h with ⟨hr, hrs⟩
    have hr' : r.date ∉ datesOf rs := hr
    rw [dropDuplicatesKeepLast, if_neg hr', ih hrs]

/-- Splitting the de-dup of a concatenation: rows of the left part survive
iff their date is not claimed by the right part. -/
theorem dropDuplicatesKeepLast_append (y : List Row) :
    ∀ x : List Row,
      dropDuplicatesKeepLast (x ++ y)
        = (dropDuplicatesKeepLast x).filter (fun r => decide (r.date ∉ datesOf y))
          ++ dropDuplicatesKeepLast y := by
  intro x
  induction x with
  | nil => simp [dropDuplicatesKeepLast]
  | cons r rs ih =>
    rw [List.cons_append]
    by_cases h1 : r.date ∈ datesOf rs
    · have hmem : r.date ∈ datesOf (rs ++ y) := by
        rw [datesOf_append]
        exact List.mem_append_left _ h1
      rw [dropDuplicatesKeepLast, if_pos hmem, ih, dropDuplicatesKeepLast, if_pos h1]
    · by_cases h2 : r.date ∈ datesOf y
      · have hmem : r.date ∈ datesOf (rs ++ y) := by
          rw [datesOf_append]
          exact List.mem_append_right _ h2
        rw [dropDuplicatesKeepLast, if_pos hmem, ih, dropDuplicatesKeepLast, if_neg h1,
          List.filter_cons]
        simp [h2]
      · have hmem : r.date ∉ datesOf (rs ++ y) := by
          rw [datesOf_append]
          intro hc
          rcases List.mem_append.mp hc with hc | hc
          · exact h1 hc
          · exact h2 hc
        rw [dropDuplicatesKeepLast, if_neg hmem, ih, dropDuplicatesKeepLast, if_neg h1,
          List.filter_cons]
        simp [h2]

theorem sortByDate_perm (l : List Row) : List.Perm (sortByDate l) l :=
  List.perm_insertionSort _ _

theorem sortByDate_sorted (l : List Row) : List.Sorted dateLE (sortByDate l) :=
  List.sorted_insertionSort _ _

theorem pairwise_lt_of_le_of_ne :
    ∀ {l : List Nat}, l.Pairwise (· ≤ ·) → l.Pairwise (· ≠ ·) → l.Pairwise (· < ·) := by
  intro l
  induction l with
  | nil => intro _ _; exact List.Pairwise.nil
  | cons a t ih =>
    intro h1 h2
    rcases List.pairwise_cons.mp h1 with ⟨ha1, ht1⟩
    rcases List.pairwise_cons.mp h2 with ⟨ha2, ht2⟩
    exact List.pairwise_cons.mpr
      ⟨fun b hb => lt_of_le_of_ne (ha1 b hb) (ha2 b hb), ih ht1 ht2⟩

theorem strictDates_of_sorted_nodup {l : List Row} (hs : List.Sorted dateLE l)
    (hn : (datesOf l).Nodup) : strictDates l := by
  have hle : (datesOf l).Pairwise (· ≤ ·) := List.pairwise_map.mpr hs
  exact pairwise_lt_of_le_of_ne hle hn

/-- The merge pipeline (de-dup then sort) always yields strictly increasing
dates. -/
theorem strictDates_sort_dedup (l : List Row) :
    strictDates (sortByDate (dropDuplicatesKeepLast l)) := by
  refine strictDates_of_sorted_nodup (sortByDate_sorted _) ?_
  have hperm : List.Perm (datesOf (sortByDate (dropDuplicatesKeepLast l)))
      (datesOf (dropDuplicatesKeepLast l)) :=
    (sortByDate_perm _).map _
  exact hperm.nodup_iff.mpr (dropDuplicatesKeepLast_nodup _)

theorem apply_rolling_window_eq_drop (cap : Nat) (l : List Row) :
    apply_rolling_window cap l = l.drop (l.length - cap) := by
  unfold apply_rolling_window
  by_cases h : l.length ≤ cap
  · rw [if_pos h, Nat.sub_eq_zero_of_le h, List.drop_zero]
  · rw [if_neg h]

theorem apply_rolling_window_length (cap : Nat) (l : List Row) :
    (apply_rolling_window cap l).length ≤ cap := by
  unfold apply_rolling_window
  by_cases h : l.length ≤ cap
  · rw [if_pos h]
    exact h
  · rw [if_neg h, List.length_drop]
    omega

theorem strictDates_drop {l : List Row} (n : Nat) (h : strictDates l) :
    strictDates (l.drop n) := by
  have hd : datesOf (List.drop n l) = (datesOf l).drop n := List.map_drop _ _ _
  unfold strictDates
  rw [hd]
  exact List.Pairwise.sublist (List.drop_sublist _ _) h

theorem ingest_none (cap : Nat) (b : List Row) :
    ingest cap none b = apply_rolling_window cap b := rfl

theorem ingest_some (cap : Nat) (e b : List Row) :
    ingest cap (some e) b
      = apply_rolling_window cap (sortByDate (dropDuplicatesKeepLast (e ++ b))) := rfl

/-- Any merge-path ingest yields strictly increasing, duplicate-free dates. -/
theorem ingest_some_strict (cap : Nat) (e b : List Row) :
    strictDates (ingest cap (some e) b) := by
  rw [ingest_some, apply_rolling_window_eq_drop]
  exact strictDates_drop _ (strictDates_sort_dedup _)

/-- Any ingest respects the window capacity. -/
theorem ingest_length (cap : Nat) (w : Option (List Row)) (b : List Row) :
    (ingest cap w b).length ≤ cap := by
  cases w
  · exact apply_rolling_window_length _ _
  · exact apply_rolling_window_length _ _

/-- Capacity bound along any ingest trajectory. -/
theorem trajectory_length (cap : Nat) :
    ∀ (bs : List (List Row)) (w0 : Option (List Row)),
      ∀ w ∈ ingestTrajectory cap w0 bs, w.length ≤ cap := by
  intro bs
  induction bs with
  | nil => intro w0 w hw; simp [ingestTrajectory] at hw
  | cons b bs ih =>
    intro w0 w hw
    simp only [ingestTrajectory] at hw
    rcases List.mem_cons.mp hw with h | h
    · rw [h]
      exact ingest_length cap w0 b
    · exact ih _ w h

/-- Strict dates along any trajectory that starts from an existing window. -/
theorem trajectory_strict_of_some (cap : Nat) :
    ∀ (bs : List (List Row)) (e : List Row),
      ∀ w ∈ ingestTrajectory cap (some e) bs, strictDates w := by
  intro bs
  induction bs with
  | nil => intro e w hw; simp [ingestTrajectory] at hw
  | cons b bs ih =>
    intro e w hw
    simp only [ingestTrajectory] at hw
    rcases List.mem_cons.mp hw with h | h
    · rw [h]
      exact ingest_some_strict cap e b
    · exact ih _ w h

/-- From the second ingest on, strict dates hold whatever the start was. -/
theorem trajectory_drop_one_strict (cap : Nat) (w0 : Option (List Row))
    (bs : List (List Row)) :
    ∀ w ∈ (ingestTrajectory cap w0 bs).drop 1, strictDates w := by
  cases bs with
  | nil => intro w hw; simp [ingestTrajectory] at hw
  | cons b bs =>
    intro w hw
    simp only [ingestTrajectory, List.drop_succ_cons, List.drop_zero] at hw
    exact trajectory_strict_of_some cap bs _ w hw

theorem strictDates_pairwise {l : List Row} (h : strictDates l) : l.Pairwise dateLT := by
  have h' := (List.pairwise_map (f := Row.date)).mp h
  exact h'

theorem nodup_dates_of_strict {l : List Row} (h : strictDates l) : (datesOf l).Nodup :=
  h.imp Nat.ne_of_lt

/-- De-dupped rows of a batch keep the batch's dates. -/
theorem filter_dateIn_dedup (b : List Row) :
    (dropDuplicatesKeepLast b).filter (dateIn b) = dropDuplicatesKeepLast b := by
  refine List.filter_eq_self.mpr ?_
  intro r hr
  have hrb : r ∈ b := (dropDuplicatesKeepLast_sublist b).subset hr
  exact decide_eq_true (List.mem_map_of_mem Row.date hrb)

/-- Rows already filtered away from the batch's dates vanish when filtered
onto them. -/
theorem filter_notIn_then_dateIn (x b : List Row) :
    ((x.filter fun r => decide (r.date ∉ datesOf b)).filter (dateIn b)) = [] := by
  rw [List.filter_filter]
  refine List.filter_eq_nil_iff.mpr ?_
  intro r hr
  by_cases h : r.date ∈ datesOf b
  · simp [h]
  · simp [dateIn, h]

/-- The rows of a merged window carrying a date of the batch are, as a
multiset, exactly the de-dupped batch (the batch's rows always win the
date-keyed de-dup). -/
theorem merged_filter_perm (e b : List Row) :
    List.Perm
      ((sortByDate (dropDuplicatesKeepLast (e ++ b))).filter (dateIn b))
      (dropDuplicatesKeepLast b) := by
  have h1 : List.Perm
      ((sortByDate (dropDuplicatesKeepLast (e ++ b))).filter (dateIn b))
      ((dropDuplicatesKeepLast (e ++ b)).filter (dateIn b)) :=
    (sortByDate_perm _).filter _
  have h2 : (dropDuplicatesKeepLast (e ++ b)).filter (dateIn b)
      = dropDuplicatesKeepLast b := by
    rw [dropDuplicatesKeepLast_append b e, List.filter_append,
      filter_notIn_then_dateIn, filter_dateIn_dedup, List.nil_append]
  rw [h2] at h1
  exact h1

/-- Re-ingesting a batch into the trimmed merge of that batch changes
nothing: the core of idempotence on the merge path. -/
theorem trim_reingest (cap : Nat) (b m : List Row)
    (hstrict : strictDates m)
    (hperm : List.Perm (m.filter (dateIn b)) (dropDuplicatesKeepLast b)) :
    apply_rolling_window cap
        (sortByDate (dropDuplicatesKeepLast (apply_rolling_window cap m ++ b)))
      = apply_rolling_window cap m := by
  rw [apply_rolling_window_eq_drop cap m]
  set j := m.length - cap with hj
  set w1 := m.drop j with hw1
  set D := m.take j with hD
  have hsplit : D ++ w1 = m := List.take_append_drop j m
  have hnodup_m : (datesOf m).Nodup := nodup_dates_of_strict hstrict
  have hnodup_w1 : (datesOf w1).Nodup := by
    rw [hw1]
    have hdw : datesOf (m.drop j) = (datesOf m).drop j := List.map_drop Row.date m j
    rw [hdw]
    exact List.Nodup.sublist (List.drop_sublist _ _) hnodup_m
  have hdedup_w1 : dropDuplicatesKeepLast w1 = w1 := dropDuplicatesKeepLast_eq_self hnodup_w1
  have hsplit2 : dropDuplicatesKeepLast (w1 ++ b)
      = (w1.filter fun r => decide (r.date ∉ datesOf b)) ++ dropDuplicatesKeepLast b := by
    rw [dropDuplicatesKeepLast_append b w1, hdedup_w1]
  have hXperm : List.Perm (sortByDate (dropDuplicatesKeepLast (w1 ++ b)))
      (D.filter (dateIn b) ++ w1) := by
    have p1 : List.Perm (sortByDate (dropDuplicatesKeepLast (w1 ++ b)))
        ((w1.filter fun r => decide (r.date ∉ datesOf b)) ++ dropDuplicatesKeepLast b) := by
      rw [← hsplit2]
      exact sortByDate_perm _
    have p2 : List.Perm
        ((w1.filter fun r => decide (r.date ∉ datesOf b)) ++ dropDuplicatesKeepLast b)
        ((w1.filter fun r => decide (r.date ∉ datesOf b)) ++ m.filter (dateIn b)) :=
      (hperm.symm).append_left _
    have hm2 : m.filter (dateIn b) = D.filter (dateIn b) ++ w1.filter (dateIn b) := by
      rw [← hsplit, List.filter_append]
    have p3 : List.Perm
        ((w1.filter fun r => decide (r.date ∉ datesOf b))
          ++ (D.filter (dateIn b) ++ w1.filter (dateIn b)))
        (D.filter (dateIn b) ++ w1) := by
      have hsplitw : List.Perm
          (w1.filter (dateIn b) ++ w1.filter (fun r => !(dateIn b r))) w1 :=
        List.filter_append_perm _ _
      have hform : (w1.filter fun r => decide (r.date ∉ datesOf b))
          = w1.filter (fun r => !(dateIn b r)) := by
        simp only [dateIn, decide_not]
      rw [hform]
      refine List.Perm.trans List.perm_append_comm ?_
      rw [List.append_assoc]
      exact hsplitw.append_left _
    rw [hm2] at p2
    exact (p1.trans p2).trans p3
  have hXsorted : List.Pairwise dateLT (sortByDate (dropDuplicatesKeepLast (w1 ++ b))) :=
    strictDates_pairwise (strictDates_sort_dedup _)
  have hm_pairwise : List.Pairwise dateLT m := strictDates_pairwise hstrict
  have hDd_sorted : List.Pairwise dateLT (D.filter (dateIn b) ++ w1) := by
    rw [← hsplit] at hm_pairwise
    rcases List.pairwise_append.mp hm_pairwise with ⟨pD, pw, cross⟩
    refine List.pairwise_append.mpr
      ⟨List.Pairwise.sublist (List.filter_sublist D) pD, pw, ?_⟩
    intro a ha c hc
    exact cross a ((List.filter_sublist D).subset ha) c hc
  have hXeq : sortByDate (dropDuplicatesKeepLast (w1 ++ b)) = D.filter (dateIn b) ++ w1 :=
    List.eq_of_perm_of_sorted hXperm hXsorted hDd_sorted
  rw [hXeq, apply_rolling_window_eq_drop]
  rcases le_or_lt m.length cap with hle | hlt
  · have hj0 : j = 0 := by rw [hj]; omega
    have hDnil : D = [] := by rw [hD, hj0, List.take_zero]
    have hw1m : w1 = m := by rw [hw1, hj0, List.drop_zero]
    rw [hDnil, List.filter_nil, List.nil_append, hw1m]
    have : m.length - cap = 0 := by omega
    rw [this, List.drop_zero]
  · have hw1len : w1.length = cap := by
      rw [hw1, List.length_drop, hj]
      omega
    have hlen : (D.filter (dateIn b) ++ w1).length - cap = (D.filter (dateIn b)).length := by
      rw [List.length_append, hw1len]
      omega
    rw [hlen, List.drop_left]

/-- Idempotence of ingestion on the merge path: with a prior window present,
ingesting the same batch a second time yields the same window. -/
theorem ingest_idem_merge (cap : Nat) (e b : List Row) :
    ingest cap (some (ingest cap (some e) b)) b = ingest cap (some e) b := by
  rw [ingest_some cap e b, ingest_some]
  exact trim_reingest cap b (sortByDate (dropDuplicatesKeepLast (e ++ b)))
    (strictDates_sort_dedup _) (merged_filter_perm e b)

end DailyData

/-- C5, counterexample: when no prior window exists, `merge_new_data` returns
the batch verbatim, so ingesting a batch that contains two rows with the same
date leaves the duplicate in the stored window — dates are not unique. -/
theorem C5_counterexample :
    ¬ DailyData.strictDates
      (DailyData.ingest 494 none [⟨1, 1, 1, 1, 1, 1⟩, ⟨1, 2, 2, 2, 2, 2⟩]) := by
  decide

/-- C5, amended: after every ingest the window length is at most the
capacity, for every starting window and batch sequence; the dates are unique
and strictly ascending after every ingest made with a prior window present —
in particular from the second ingest of any sequence on.  Only the very
first ingest of a fresh store can violate date uniqueness/order, because
there the batch is stored as fetched (only trimmed). -/
theorem C5_window_invariant_amended (cap : Nat) (w0 : Option (List DailyData.Row))
    (bs : List (List DailyData.Row)) :
    (∀ w ∈ DailyData.ingestTrajectory cap w0 bs, w.length ≤ cap) ∧
    (∀ e, w0 = some e →
      ∀ w ∈ DailyData.ingestTrajectory cap w0 bs, DailyData.strictDates w) ∧
    (∀ w ∈ (DailyData.ingestTrajectory cap w0 bs).drop 1, DailyData.strictDates w) :=
  ⟨fun w hw => DailyData.trajectory_length cap bs w0 w hw,
    fun e he w hw => by
      rw [he] at hw
      exact DailyData.trajectory_strict_of_some cap bs e w hw,
    DailyData.trajectory_drop_one_strict cap w0 bs⟩

/-- C6, counterexample: with no prior window, the first ingest stores the
batch verbatim, so ingesting an unsorted batch twice re-sorts it and the
window changes: the two windows do not even carry their dates in the same
order. -/
theorem C6_counterexample :
    ¬ (DailyData.datesOf (DailyData.ingest 494 (some (DailyData.ingest 494 none
          [⟨2, 0, 0, 0, 0, 0⟩, ⟨1, 0, 0, 0, 0, 0⟩]))
          [⟨2, 0, 0, 0, 0, 0⟩, ⟨1, 0, 0, 0, 0, 0⟩])
        = DailyData.datesOf (DailyData.ingest 494 none
          [⟨2, 0, 0, 0, 0, 0⟩, ⟨1, 0, 0, 0, 0, 0⟩])) := by
  decide

/-- C6, amended: whenever a prior window exists (the merge-and-trim path),
ingesting the same batch twice in succession yields exactly the same window
as ingesting it once — for every prior window, every batch (duplicate dates
included) and every capacity.  Only the no-prior-window case escapes this,
because there the first ingest stores the batch verbatim. -/
theorem C6_idempotent_amended (cap : Nat) (e b : List DailyData.Row) :
    DailyData.ingest cap (some (DailyData.ingest cap (some e) b)) b
      = DailyData.ingest cap (some e) b :=
  DailyData.ingest_idem_merge cap e b

/-- C5 witness: a concrete two-ingest run from an existing one-row window
keeps the capacity bound and strictly ascending dates at every step. -/
theorem C5_witness :
    DailyData.strictDates
      (DailyData.ingest 3 (some [⟨1, 1, 1, 1, 1, 1⟩]) [⟨2, 1, 1, 1, 1, 1⟩]) ∧
    (DailyData.ingest 3 (some [⟨1, 1, 1, 1, 1, 1⟩]) [⟨2, 1, 1, 1, 1, 1⟩]).length ≤ 3 := by
  have h := C5_window_invariant_amended 3 (some [⟨1, 1, 1, 1, 1, 1⟩]) [[⟨2, 1, 1, 1, 1, 1⟩]]
  have hmem : DailyData.ingest 3 (some [⟨1, 1, 1, 1, 1, 1⟩]) [⟨2, 1, 1, 1, 1, 1⟩]
      ∈ DailyData.ingestTrajectory 3 (some [⟨1, 1, 1, 1, 1, 1⟩]) [[⟨2, 1, 1, 1, 1, 1⟩]] := by
    simp [DailyData.ingestTrajectory]
  exact ⟨h.2.1 _ rfl _ hmem, h.1 _ hmem⟩

end KimiAutoTrader
